import Mathlib

/-!
Verification development for the chunked article-persistence engine and the
structured content codec of the obsidian-read-it-later plugin.

JavaScript strings are modelled as lists of characters (`Str`); the host's
key-value persistence object (`plugin.data`) is modelled as an explicit
record (`Host`); `Record<string, string>` objects are modelled as
association lists with JavaScript object-assignment semantics (replace the
value in place when the key exists, append otherwise).  Source while-loops
are translated as structural recursion over an explicit fuel argument that
is always initialized large enough that it is never exhausted.
-/

namespace ReadItLater

/-- Model of a JavaScript string: a list of characters. -/
abbrev Str := List Char

/-- Embed a Lean string literal as a `Str`. -/
def strL (x : String) : Str := x.data

/-- Model of `String.prototype.trim`: drop whitespace from both ends. -/
def trimStr (s : Str) : Str :=
  ((s.dropWhile Char.isWhitespace).reverse.dropWhile Char.isWhitespace).reverse

/-- Loop of the decimal rendering of a natural number (as produced by
JavaScript template interpolation of a number index); the fuel argument
only bounds the recursion depth. -/
def natDigitsGo : Nat → Nat → Str
  | 0, _ => []
  | fuel + 1, n =>
    if n < 10 then [Char.ofNat (48 + n)]
    else natDigitsGo fuel (n / 10) ++ [Char.ofNat (48 + n % 10)]

/-- Decimal digit characters of a natural number. -/
def natDigits (n : Nat) : Str := natDigitsGo (n + 1) n

/-- Decimal value of a digit list; used to invert `natDigits`. -/
def decVal (ds : Str) : Nat :=
  ds.foldl (fun acc c => acc * 10 + (c.toNat - 48)) 0

theorem decVal_append_digit (ds : Str) (c : Char) :
    decVal (ds ++ [c]) = decVal ds * 10 + (c.toNat - 48) := by
  simp [decVal, List.foldl_append]

theorem toNat_ofNat_digit (d : Nat) (hd : d < 10) :
    (Char.ofNat (48 + d)).toNat = 48 + d := by
  interval_cases d <;> decide

theorem decVal_natDigitsGo : ∀ (fuel n : Nat), n < fuel →
    decVal (natDigitsGo fuel n) = n := by
  intro fuel
  induction fuel with
  | zero => intro n h; omega
  | succ fuel ih =>
    intro n h
    rw [natDigitsGo]
    by_cases h10 : n < 10
    · rw [if_pos h10]
      show decVal ([] ++ [Char.ofNat (48 + n)]) = n
      rw [decVal_append_digit, toNat_ofNat_digit n h10]
      simp [decVal]
    · rw [if_neg h10]
      have hlt : n / 10 < fuel := by
        have := Nat.div_lt_self (by omega : 0 < n) (by omega : 1 < 10)
        omega
      rw [decVal_append_digit, ih (n / 10) hlt,
        toNat_ofNat_digit (n % 10) (Nat.mod_lt _ (by omega))]
      omega

theorem decVal_natDigits (n : Nat) : decVal (natDigits n) = n :=
  decVal_natDigitsGo (n + 1) n (Nat.lt_succ_self n)

theorem natDigits_injective : Function.Injective natDigits := by
  intro a b h
  have := decVal_natDigits a
  rw [h, decVal_natDigits] at this
  omega

theorem hyphen_not_mem_natDigitsGo : ∀ (fuel n : Nat),
    ('-' : Char) ∉ natDigitsGo fuel n := by
  intro fuel
  induction fuel with
  | zero => intro n; simp [natDigitsGo]
  | succ fuel ih =>
    intro n
    rw [natDigitsGo]
    by_cases h10 : n < 10
    · rw [if_pos h10]
      intro hc
      rcases List.mem_singleton.mp hc with hc
      have := congrArg Char.toNat hc
      rw [toNat_ofNat_digit n h10] at this
      have h45 : ('-' : Char).toNat = 45 := by decide
      omega
    · rw [if_neg h10]
      intro hc
      rcases List.mem_append.mp hc with hmem | hc2
      · exact ih (n / 10) hmem
      · rcases List.mem_singleton.mp hc2 with hc2
        have := congrArg Char.toNat hc2
        rw [toNat_ofNat_digit (n % 10) (Nat.mod_lt _ (by omega))] at this
        have h45 : ('-' : Char).toNat = 45 := by decide
        omega

theorem hyphen_not_mem_natDigits (n : Nat) : ('-' : Char) ∉ natDigits n :=
  hyphen_not_mem_natDigitsGo (n + 1) n

/-- Splitting a list at its first hyphen is unambiguous when neither prefix
contains a hyphen. -/
theorem hyphen_split_unique :
    ∀ (as cs bs ds : Str), ('-' : Char) ∉ as → ('-' : Char) ∉ cs →
      as ++ '-' :: bs = cs ++ '-' :: ds → as = cs ∧ bs = ds := by
  intro as
  induction as with
  | nil =>
    intro cs bs ds _ hcs h
    cases cs with
    | nil => exact ⟨rfl, by simpa using h⟩
    | cons c cs =>
      simp only [List.nil_append, List.cons_append, List.cons.injEq] at h
      exact absurd (h.1 ▸ List.mem_cons_self c cs) hcs
  | cons a as ih =>
    intro cs bs ds has hcs h
    cases cs with
    | nil =>
      simp only [List.cons_append, List.nil_append, List.cons.injEq] at h
      exact absurd (h.1 ▸ List.mem_cons_self a as) has
    | cons c cs =>
      simp only [List.cons_append, List.cons.injEq] at h
      obtain ⟨rfl, h2⟩ := h
      have := ih cs bs ds (fun hm => has (List.mem_cons_of_mem _ hm))
        (fun hm => hcs (List.mem_cons_of_mem _ hm)) h2
      exact ⟨by rw [this.1], this.2⟩

/-! ## ChunkCodec: splitting and reassembly (ReaderView.tsx lines 891-923) -/

/-- `CONTENT_CHUNK_SIZE` from ReaderView.tsx line 863. -/
def CONTENT_CHUNK_SIZE : Nat := 50000

/-- Loop body of `StorageService.splitContentIntoChunks`: while content
remains, push `remainingContent.substring(0, CONTENT_CHUNK_SIZE)` and
continue with `remainingContent.substring(CONTENT_CHUNK_SIZE)`.  The fuel
argument only bounds the iteration count; it is initialized to the content
length, which always suffices because each iteration consumes at least one
character. -/
def splitChunksGo : Nat → Str → List Str
  | _, [] => []
  | 0, _ :: _ => []
  | fuel + 1, c :: rest =>
    (c :: rest).take CONTENT_CHUNK_SIZE ::
      splitChunksGo fuel ((c :: rest).drop CONTENT_CHUNK_SIZE)

/-- `StorageService.splitContentIntoChunks` (ReaderView.tsx lines 891-902). -/
def splitContentIntoChunks (content : Str) : List Str :=
  splitChunksGo content.length content

/-- A chunk map models the flat `Record<string, string>` object
`contentChunks`: an association list from chunk id to chunk content. -/
abbrev ChunkMap := List (Str × Str)

/-- JavaScript object property assignment `m[k] = v`: replace the value in
place when the key is present, append the new binding otherwise. -/
def insertKV (m : ChunkMap) (k v : Str) : ChunkMap :=
  match m with
  | [] => [(k, v)]
  | (k', v') :: rest => if k' = k then (k', v) :: rest else (k', v') :: insertKV rest k v

/-- Sequential object assignments for a list of bindings. -/
def insertAll (m : ChunkMap) (ps : List (Str × Str)) : ChunkMap :=
  ps.foldl (fun acc p => insertKV acc p.1 p.2) m

/-- `StorageService.reassembleContentFromChunks` (ReaderView.tsx lines
910-923): concatenate, in the order of `chunkIds`, each chunk found in the
map; a missing id is logged and skipped. -/
def reassembleContentFromChunks (chunkIds : List Str) (contentChunks : ChunkMap) : Str :=
  chunkIds.foldl
    (fun fullContent chunkId =>
      match contentChunks.lookup chunkId with
      | some chunk => fullContent ++ chunk
      | none => fullContent)
    []

theorem splitChunksGo_flatten : ∀ (fuel : Nat) (cs : Str), cs.length ≤ fuel →
    (splitChunksGo fuel cs).flatten = cs := by
  intro fuel
  induction fuel with
  | zero =>
    intro cs h
    have : cs = [] := List.length_eq_zero.mp (by omega)
    subst this
    rfl
  | succ fuel ih =>
    intro cs h
    cases cs with
    | nil => rfl
    | cons c rest =>
      have hdl : ((c :: rest).drop CONTENT_CHUNK_SIZE).length ≤ fuel := by
        simp only [List.length_drop, List.length_cons, CONTENT_CHUNK_SIZE] at h ⊢
        omega
      rw [splitChunksGo]
      simp only [List.flatten_cons]
      rw [ih _ hdl]
      exact List.take_append_drop _ _

theorem splitContentIntoChunks_flatten (content : Str) :
    (splitContentIntoChunks content).flatten = content :=
  splitChunksGo_flatten content.length content le_rfl

theorem splitChunksGo_length : ∀ (fuel : Nat) (cs : Str), cs.length ≤ fuel →
    (splitChunksGo fuel cs).length =
      (cs.length + (CONTENT_CHUNK_SIZE - 1)) / CONTENT_CHUNK_SIZE := by
  intro fuel
  induction fuel with
  | zero =>
    intro cs h
    have : cs = [] := List.length_eq_zero.mp (by omega)
    subst this
    simp [splitChunksGo, CONTENT_CHUNK_SIZE]
  | succ fuel ih =>
    intro cs h
    cases cs with
    | nil => simp [splitChunksGo, CONTENT_CHUNK_SIZE]
    | cons c rest =>
      have hdl : ((c :: rest).drop CONTENT_CHUNK_SIZE).length ≤ fuel := by
        simp only [List.length_drop, List.length_cons, CONTENT_CHUNK_SIZE] at h ⊢
        omega
      rw [splitChunksGo]
      simp only [List.length_cons]
      rw [ih _ hdl]
      simp only [List.length_drop, List.length_cons, CONTENT_CHUNK_SIZE]
      omega

theorem splitChunksGo_dropLast : ∀ (fuel : Nat) (cs : Str), cs.length ≤ fuel →
    ∀ chunk ∈ (splitChunksGo fuel cs).dropLast, chunk.length = CONTENT_CHUNK_SIZE := by
  intro fuel
  induction fuel with
  | zero =>
    intro cs h
    have : cs = [] := List.length_eq_zero.mp (by omega)
    subst this
    simp [splitChunksGo]
  | succ fuel ih =>
    intro cs h chunk hmem
    cases cs with
    | nil => simp [splitChunksGo] at hmem
    | cons c rest =>
      rw [splitChunksGo] at hmem
      have hdroplen : ((c :: rest).drop CONTENT_CHUNK_SIZE).length ≤ fuel := by
        simp only [List.length_drop, List.length_cons, CONTENT_CHUNK_SIZE] at h ⊢
        omega
      by_cases hrest : splitChunksGo fuel ((c :: rest).drop CONTENT_CHUNK_SIZE) = []
      · rw [hrest] at hmem
        simp at hmem
      · rw [List.dropLast_cons_of_ne_nil hrest] at hmem
        rcases List.mem_cons.mp hmem with rfl | hmem2
        · have hne : (c :: rest).drop CONTENT_CHUNK_SIZE ≠ [] := by
            intro hz
            rw [hz] at hrest
            exact hrest (by simp [splitChunksGo])
          have hlen : CONTENT_CHUNK_SIZE < (c :: rest).length := by
            have := List.length_pos.mpr hne
            simp only [List.length_drop] at this
            omega
          rw [List.length_take]
          omega
        · exact ih _ hdroplen chunk hmem2

theorem splitChunksGo_getLast : ∀ (fuel : Nat) (cs : Str), cs.length ≤ fuel →
    ∀ l, (splitChunksGo fuel cs).getLast? = some l →
      l.length = if cs.length % CONTENT_CHUNK_SIZE = 0
        then CONTENT_CHUNK_SIZE else cs.length % CONTENT_CHUNK_SIZE := by
  intro fuel
  induction fuel with
  | zero =>
    intro cs h
    have : cs = [] := List.length_eq_zero.mp (by omega)
    subst this
    simp [splitChunksGo]
  | succ fuel ih =>
    intro cs h l hl
    cases cs with
    | nil => simp [splitChunksGo] at hl
    | cons c rest =>
      rw [splitChunksGo] at hl
      have hdroplen : ((c :: rest).drop CONTENT_CHUNK_SIZE).length ≤ fuel := by
        simp only [List.length_drop, List.length_cons, CONTENT_CHUNK_SIZE] at h ⊢
        omega
      by_cases hrest : (c :: rest).drop CONTENT_CHUNK_SIZE = []
      · have hlen : (c :: rest).length ≤ CONTENT_CHUNK_SIZE := by
          have := congrArg List.length hrest
          simp only [List.length_drop, List.length_nil] at this
          omega
        rw [hrest] at hl
        simp only [splitChunksGo, List.getLast?_singleton, Option.some.injEq] at hl
        subst hl
        rw [List.length_take]
        have hp : 0 < (c :: rest).length := by simp
        rcases Nat.lt_or_ge (c :: rest).length CONTENT_CHUNK_SIZE with hlt | hge
        · rw [Nat.mod_eq_of_lt hlt, if_neg (by omega)]
          omega
        · have heq : (c :: rest).length = CONTENT_CHUNK_SIZE := by omega
          rw [heq]
          simp [CONTENT_CHUNK_SIZE]
      · have hne : splitChunksGo fuel ((c :: rest).drop CONTENT_CHUNK_SIZE) ≠ [] := by
          cases hd : (c :: rest).drop CONTENT_CHUNK_SIZE with
          | nil => exact absurd hd hrest
          | cons x xs =>
            cases fuel with
            | zero =>
              exfalso
              have hle := hdroplen
              rw [hd] at hle
              simp at hle
            | succ fuel2 => simp [splitChunksGo]
        obtain ⟨x, xs, hx⟩ : ∃ x xs,
            splitChunksGo fuel ((c :: rest).drop CONTENT_CHUNK_SIZE) = x :: xs := by
          cases hsg : splitChunksGo fuel ((c :: rest).drop CONTENT_CHUNK_SIZE) with
          | nil => exact absurd hsg hne
          | cons x xs => exact ⟨x, xs, rfl⟩
        rw [hx, List.getLast?_cons_cons] at hl
        have := ih _ hdroplen l (by rw [hx]; exact hl)
        rw [this]
        have hlt : CONTENT_CHUNK_SIZE < (c :: rest).length := by
          have := List.length_pos.mpr hrest
          simp only [List.length_drop] at this
          omega
        simp only [List.length_drop]
        have hmod : ((c :: rest).length - CONTENT_CHUNK_SIZE) % CONTENT_CHUNK_SIZE
            = (c :: rest).length % CONTENT_CHUNK_SIZE := by
          conv_rhs => rw [show (c :: rest).length
            = ((c :: rest).length - CONTENT_CHUNK_SIZE) + CONTENT_CHUNK_SIZE by omega]
          rw [Nat.add_mod_right]
        rw [hmod]

/-- C2. For every string C with the fixed chunk size 50000,
`splitContentIntoChunks` returns `ceil(len(C)/50000)` chunks (zero for the
empty string); every chunk except possibly the last has length exactly
50000, and the last chunk has length `len(C) mod 50000`, or 50000 when
`len(C)` is a positive exact multiple of 50000. -/
theorem splitContentIntoChunks_spec (content : Str) :
    (splitContentIntoChunks content).length =
        (content.length + (CONTENT_CHUNK_SIZE - 1)) / CONTENT_CHUNK_SIZE
    ∧ (content = [] → splitContentIntoChunks content = [])
    ∧ (∀ chunk ∈ (splitContentIntoChunks content).dropLast,
        chunk.length = CONTENT_CHUNK_SIZE)
    ∧ (∀ l, (splitContentIntoChunks content).getLast? = some l →
        l.length = if content.length % CONTENT_CHUNK_SIZE = 0
          then CONTENT_CHUNK_SIZE else content.length % CONTENT_CHUNK_SIZE) := by
  refine ⟨splitChunksGo_length content.length content le_rfl, ?_,
    splitChunksGo_dropLast content.length content le_rfl,
    splitChunksGo_getLast content.length content le_rfl⟩
  intro h
  subst h
  rfl

/-- Witness for C2 at the concrete one-character content "a": one chunk,
whose last (and only) element has length 1 = 1 mod 50000. -/
theorem splitContentIntoChunks_spec_witness :
    (splitContentIntoChunks (strL "a")).length = 1
    ∧ (strL "a").length = if (strL "a").length % CONTENT_CHUNK_SIZE = 0
        then CONTENT_CHUNK_SIZE else (strL "a").length % CONTENT_CHUNK_SIZE := by
  have h := splitContentIntoChunks_spec (strL "a")
  refine ⟨?_, ?_⟩
  · rw [h.1]; decide
  · exact h.2.2.2 (strL "a") (by decide)

theorem reassemble_eq_flatten_lookups (chunkIds : List Str) (m : ChunkMap) :
    reassembleContentFromChunks chunkIds m =
      (chunkIds.map (fun cid => (m.lookup cid).getD [])).flatten := by
  suffices h : ∀ acc : Str, chunkIds.foldl
      (fun fullContent chunkId =>
        match m.lookup chunkId with
        | some chunk => fullContent ++ chunk
        | none => fullContent) acc
      = acc ++ (chunkIds.map (fun cid => (m.lookup cid).getD [])).flatten by
    simpa [reassembleContentFromChunks] using h []
  induction chunkIds with
  | nil => intro acc; simp
  | cons c cs ih =>
    intro acc
    simp only [List.foldl_cons, List.map_cons, List.flatten_cons]
    cases hc : m.lookup c with
    | none => rw [ih]; simp [hc]
    | some chunk => rw [ih]; simp [hc]

/-- C3. Reassembly concatenates, in the order of the id list, the map value
of each id that is present (skipping missing ids), and its result depends
only on the id list and the map viewed as a lookup function, never on the
order of the underlying entries. -/
theorem reassembleContentFromChunks_spec (chunkIds : List Str) (m : ChunkMap) :
    reassembleContentFromChunks chunkIds m =
        (chunkIds.map (fun cid => (m.lookup cid).getD [])).flatten
    ∧ (∀ m' : ChunkMap, (∀ k : Str, m.lookup k = m'.lookup k) →
        reassembleContentFromChunks chunkIds m =
          reassembleContentFromChunks chunkIds m') := by
  refine ⟨reassemble_eq_flatten_lookups chunkIds m, ?_⟩
  intro m' hext
  rw [reassemble_eq_flatten_lookups, reassemble_eq_flatten_lookups]
  congr 1
  exact List.map_congr_left (fun cid _ => by rw [hext cid])

/-- Witness for C3: reassembling two chunks from a map whose entries were
inserted in reverse order still yields the chunks in id-list order. -/
theorem reassembleContentFromChunks_spec_witness :
    reassembleContentFromChunks [strL "k1", strL "k2"]
        [(strL "k2", strL "B"), (strL "k1", strL "A")] = strL "AB" := by
  have h := (reassembleContentFromChunks_spec [strL "k1", strL "k2"]
    [(strL "k2", strL "B"), (strL "k1", strL "A")]).2
    [(strL "k1", strL "A"), (strL "k2", strL "B")]
    (fun k => by
      by_cases h1 : k = strL "k1"
      · subst h1; decide
      · by_cases h2 : k = strL "k2"
        · subst h2; decide
        · have e1 : (k == strL "k1") = false := beq_eq_false_iff_ne.mpr h1
          have e2 : (k == strL "k2") = false := beq_eq_false_iff_ne.mpr h2
          simp [List.lookup, e1, e2])
  rw [h]
  decide

/-! ## ArticleStore: persisted state and the StorageService operations
(ReaderView.tsx lines 860-1366) -/

/-- Article status (`'read' | 'unread'`). -/
inductive ArticleStatus where
  | read
  | unread
deriving DecidableEq

/-- The Article record (src/lib/types/article.ts) restricted to the fields
the storage layer reads or branches on.  The remaining metadata fields
(domain, addedAt, excerpt, author, siteName, image, publishedAt) are copied
through every operation unchanged apart from date (de)serialization, which
the claims do not touch, so they are omitted.  An absent `contentChunkIds`
is modelled as the empty list, matching `article.contentChunkIds || []` on
load. -/
structure Article where
  id : Str
  title : Str
  url : Str
  status : ArticleStatus
  content : Str
  contentChunkIds : List Str
deriving DecidableEq

/-- The two persisted keys inside the host plugin data object:
`smartReaderArticles` and `smartReaderContentChunks`; `none` models an
absent key.  The source recovery branch for a non-array articles value
(ReaderView.tsx lines 1093-1110) is unreachable in this typed model. -/
structure PluginData where
  articlesVal : Option (List Article)
  chunksVal : Option ChunkMap
deriving DecidableEq

/-- Outcome of `await plugin.loadData()`: either the host read throws, or
it returns the persisted data object (possibly absent). -/
inductive LoadResult where
  | threw
  | ok (data : Option PluginData)
deriving DecidableEq

/-- The host persistence capability seen by `StorageService`: the in-memory
`plugin.data` object (`none` models `plugin.data` being undefined), and the
result of `await plugin.loadData()`. -/
structure Host where
  pluginData : Option PluginData
  loadDataResult : LoadResult
deriving DecidableEq

/-- Fallback stored when an article's content is not a non-empty string at
save time (ReaderView.tsx line 978). -/
def lostContentFallback : Str :=
  strL "<p>Content was lost during serialization. Please try refreshing.</p>"

/-- Fallback stored when an article's content is all whitespace at save
time (ReaderView.tsx line 983). -/
def emptyContentFallback : Str :=
  strL "<p>Article content appears to be empty. Please try refreshing.</p>"

/-- Fallback used when chunk reassembly yields nothing (line 1197). -/
def reassembleFailFallback : Str :=
  strL "<p>Content could not be reassembled from chunks. The article may be corrupted.</p>"

/-- Fallback used when non-chunked loaded content is missing or blank
(line 1203). -/
def invalidLoadFallback : Str :=
  strL "<p>Content could not be loaded properly. The article may be corrupted.</p>"

/-- Fallback used by `updateArticle` for invalid content (line 1291). -/
def updateSaveFallback : Str := strL "<p>Content could not be saved properly.</p>"

/-- Wrapping of non-HTML content in paragraph tags. -/
def wrapP (s : Str) : Str := strL "<p>" ++ s ++ strL "</p>"

/-- Chunk id `${article.id}-chunk-${index}-${uuidv4().substring(0, 8)}`
(ReaderView.tsx line 1006); the uniquifying uuid token is supplied by the
`suffix` argument. -/
def chunkId (articleId : Str) (index : Nat) (suffix : Str) : Str :=
  articleId ++ (strL "-chunk-" ++ (natDigits index ++ (strL "-" ++ suffix)))

/-- The chunk map currently persisted on the host:
`this.plugin.data?.[this.contentChunksKey] || {}`. -/
def chunksOf (host : Host) : ChunkMap :=
  match host.pluginData with
  | some pd => pd.chunksVal.getD []
  | none => []

/-- Per-article body of the `articles.map` inside
`StorageService.saveArticles` (ReaderView.tsx lines 960-1026).  `suf n`
models the 8-character token of the n-th `uuidv4()` call of this save;
`n` counts the calls made so far.  Returns the serialized article, the
chunk-map entries this article inserts (in insertion order), and the
updated call count. -/
def serializeArticle (suf : Nat → Str) (n : Nat) (article : Article) :
    Article × List (Str × Str) × Nat :=
  if article.content = [] then
    ({ article with content := lostContentFallback, contentChunkIds := [] }, [], n)
  else if trimStr article.content = [] then
    ({ article with content := emptyContentFallback, contentChunkIds := [] }, [], n)
  else
    let validContent := if article.content.contains '<' then article.content
      else wrapP article.content
    if CONTENT_CHUNK_SIZE < validContent.length then
      let contentChunksArray := splitContentIntoChunks validContent
      let pairs := contentChunksArray.enum.map
        (fun p => (chunkId article.id p.1 (suf (n + p.1)), p.2))
      ({ article with
          content := validContent.take 200 ++ strL "... [Content stored in chunks]",
          contentChunkIds := pairs.map Prod.fst },
        pairs, n + contentChunksArray.length)
    else
      ({ article with content := validContent, contentChunkIds := [] }, [], n)

/-- The full `articles.map` of `saveArticles`, threading the uuid call
count and collecting all chunk-map insertions in order. -/
def serializeArticles (suf : Nat → Str) : Nat → List Article → List Article × List (Str × Str)
  | _, [] => ([], [])
  | n, a :: rest =>
    let r := serializeArticle suf n a
    let rs := serializeArticles suf r.2.2 rest
    (r.1 :: rs.1, r.2.1 ++ rs.2)

/-- `StorageService.saveArticles` (ReaderView.tsx lines 930-1056): load the
existing chunk map, serialize every article (chunking oversized content),
and write both keys back to the host in one save. -/
def saveArticles (suf : Nat → Str) (articles : List Article) (host : Host) : Host :=
  let r := serializeArticles suf 0 articles
  { host with
    pluginData := some ({ articlesVal := some r.1,
                          chunksVal := some (insertAll (chunksOf host) r.2) } : PluginData) }

/-- Per-record body of `StorageService.processArticleData` (ReaderView.tsx
lines 1178-1241).  The per-record try/catch is dead in this typed model
because every step here is total. -/
def processStoredArticle (contentChunks : ChunkMap) (article : Article) : Article :=
  let validContent :=
    if article.contentChunkIds ≠ [] then
      let reassembledContent :=
        reassembleContentFromChunks article.contentChunkIds contentChunks
      if reassembledContent ≠ [] then reassembledContent else reassembleFailFallback
    else
      if trimStr article.content = [] then invalidLoadFallback else article.content
  let validContent2 := if validContent.contains '<' then validContent
    else wrapP validContent
  { article with content := validContent2 }

/-- `StorageService.processArticleData` (ReaderView.tsx lines 1157-1245). -/
def processArticleData (data : List Article) (contentChunks : ChunkMap) : List Article :=
  data.map (processStoredArticle contentChunks)

/-- `StorageService.loadArticles` (ReaderView.tsx lines 1062-1149): try the
articles key of `plugin.data` directly, fall back to `plugin.loadData()`
(whose throw is caught, returning the empty list), return the empty list
when the key is absent, and otherwise process the records against the
chunk map read from `plugin.data`. -/
def loadArticles (host : Host) : List Article :=
  match host.pluginData.bind (fun pd => pd.articlesVal) with
  | some articlesData => processArticleData articlesData (chunksOf host)
  | none =>
    match host.loadDataResult with
    | LoadResult.threw => []
    | LoadResult.ok none => []
    | LoadResult.ok (some pd) =>
      match pd.articlesVal with
      | some articlesData => processArticleData articlesData (chunksOf host)
      | none => []

/-- `StorageService.addArticle` (ReaderView.tsx lines 1252-1277): replace
the first article with the same url in place, preserving the stored id,
otherwise append; then save the full list. -/
def addArticle (suf : Nat → Str) (article : Article) (host : Host) : Host :=
  let articles := loadArticles host
  match articles.findIdx? (fun a => a.url == article.url) with
  | some existingIndex =>
    saveArticles suf
      (articles.set existingIndex
        { article with id := ((articles[existingIndex]?).getD article).id })
      host
  | none => saveArticles suf (articles ++ [article]) host

/-- `StorageService.updateArticle` (ReaderView.tsx lines 1284-1321).  The
result pairs the outcome visible to the caller with the resulting host
state; the not-found throw is re-wrapped by the surrounding catch into the
storage-level failure message before reaching the caller. -/
def updateArticle (suf : Nat → Str) (updatedArticle : Article) (host : Host) :
    Except Str Unit × Host :=
  let c0 := if updatedArticle.content = [] then updateSaveFallback
    else updatedArticle.content
  let c1 := if c0.contains '<' then c0 else wrapP c0
  let ua := { updatedArticle with content := c1 }
  let articles := loadArticles host
  match articles.findIdx? (fun a => a.id == ua.id) with
  | some index => (Except.ok (), saveArticles suf (articles.set index ua) host)
  | none => (Except.error (strL "Failed to update article in Obsidian storage"), host)

/-- `StorageService.deleteArticle` (ReaderView.tsx lines 1328-1342). -/
def deleteArticle (articleId : Str) (suf : Nat → Str) (host : Host) :
    Except Str Unit × Host :=
  let articles := loadArticles host
  let filteredArticles := articles.filter (fun a => a.id != articleId)
  if articles.length = filteredArticles.length then
    (Except.error (strL "Failed to delete article from Obsidian storage"), host)
  else
    (Except.ok (), saveArticles suf filteredArticles host)

/-- In-place status mutation of the first article found by
`articles.find(a => a.id === articleId)`. -/
def setStatusFirst (articleId : Str) (status : ArticleStatus) : List Article → List Article
  | [] => []
  | a :: rest =>
    if a.id == articleId then { a with status := status } :: rest
    else a :: setStatusFirst articleId status rest

/-- `StorageService.updateArticleStatus` (ReaderView.tsx lines 1350-1365). -/
def updateArticleStatus (articleId : Str) (status : ArticleStatus) (suf : Nat → Str)
    (host : Host) : Except Str Unit × Host :=
  let articles := loadArticles host
  if (articles.find? (fun a => a.id == articleId)).isSome then
    (Except.ok (), saveArticles suf (setStatusFirst articleId status articles) host)
  else
    (Except.error (strL "Failed to update article status in Obsidian storage"), host)

/-- C7. `loadArticles` never propagates a failure: with the article-list
key absent it returns the empty list, both when the host read succeeds
without that key and when the host read throws.  (`loadArticles` is a
total function into `List Article`, so no failure can propagate.) -/
theorem loadArticles_absent_or_throw (host : Host)
    (habsent : host.pluginData.bind (fun pd => pd.articlesVal) = none) :
    (host.loadDataResult = LoadResult.threw → loadArticles host = [])
    ∧ (∀ pd, host.loadDataResult = LoadResult.ok pd →
        pd.bind (fun q => q.articlesVal) = none → loadArticles host = []) := by
  constructor
  · intro hthrow
    unfold loadArticles
    rw [habsent, hthrow]
  · intro pd hok hnone
    unfold loadArticles
    rw [habsent, hok]
    cases pd with
    | none => rfl
    | some q =>
      simp only [Option.some_bind] at hnone
      simp [hnone]

/-- Witness for C7: a host with no plugin data and a throwing read yields
the empty list. -/
theorem loadArticles_absent_or_throw_witness :
    loadArticles { pluginData := none, loadDataResult := LoadResult.threw } = [] :=
  (loadArticles_absent_or_throw
    { pluginData := none, loadDataResult := LoadResult.threw } (by decide)).1 rfl

theorem findIdx_id_none (articles : List Article) (i : Str)
    (h : ∀ a ∈ articles, a.id ≠ i) :
    articles.findIdx? (fun a => a.id == i) = none := by
  rw [List.findIdx?_eq_none_iff]
  intro a ha
  simpa using h a ha

/-- C6. On an id matching no stored article, each of `updateArticle`,
`deleteArticle` and `updateArticleStatus` fails with its distinguishable
storage failure and leaves the persisted host state (article list and
chunk map) unchanged. -/
theorem notFound_leaves_state_unchanged (host : Host) (suf : Nat → Str)
    (ua : Article) (articleId : Str) (status : ArticleStatus)
    (hu : ∀ a ∈ loadArticles host, a.id ≠ ua.id)
    (hd : ∀ a ∈ loadArticles host, a.id ≠ articleId) :
    updateArticle suf ua host
        = (Except.error (strL "Failed to update article in Obsidian storage"), host)
    ∧ deleteArticle articleId suf host
        = (Except.error (strL "Failed to delete article from Obsidian storage"), host)
    ∧ updateArticleStatus articleId status suf host
        = (Except.error (strL "Failed to update article status in Obsidian storage"), host) := by
  refine ⟨?_, ?_, ?_⟩
  · simp only [updateArticle]
    rw [findIdx_id_none _ _ hu]
  · have hfil : (loadArticles host).filter (fun a => a.id != articleId)
        = loadArticles host := by
      rw [List.filter_eq_self]
      intro a ha
      simpa using hd a ha
    simp only [deleteArticle]
    rw [hfil, if_pos rfl]
  · have hfind : (loadArticles host).find? (fun a => a.id == articleId) = none := by
      rw [List.find?_eq_none]
      intro a ha
      simpa using hd a ha
    simp only [updateArticleStatus]
    rw [hfind]
    rfl

/-- A concrete stored article used by witnesses. -/
def sampleStoredArticle : Article :=
  { id := strL "a1", title := [], url := strL "https://e.com/a", status := ArticleStatus.unread,
    content := strL "<p>x</p>", contentChunkIds := [] }

/-- A concrete host persisting exactly `sampleStoredArticle` and an empty
chunk map. -/
def sampleHost : Host :=
  { pluginData := some ({ articlesVal := some [sampleStoredArticle],
                          chunksVal := some [] } : PluginData),
    loadDataResult := LoadResult.ok none }

/-- A concrete article whose id ("zz") and url match nothing stored in
`sampleHost`. -/
def unknownArticle : Article :=
  { id := strL "zz", title := [], url := strL "https://e.com/z", status := ArticleStatus.unread,
    content := strL "<p>y</p>", contentChunkIds := [] }

/-- Witness for C6 at the concrete host `sampleHost` and the unknown id
"zz". -/
theorem notFound_leaves_state_unchanged_witness :
    updateArticle (fun _ => []) unknownArticle sampleHost
      = (Except.error (strL "Failed to update article in Obsidian storage"), sampleHost) :=
  (notFound_leaves_state_unchanged sampleHost (fun _ => []) unknownArticle (strL "zz")
    ArticleStatus.unread (by decide) (by decide)).1

theorem findIdx?_some_sat {α : Type} {p : α → Bool}
    (l : List α) (i : Nat) (h : l.findIdx? p = some i)
    (ex : α) (hex : l[i]? = some ex) : p ex = true := by
  obtain ⟨hlt, hp, _⟩ := List.findIdx?_eq_some_iff_getElem.mp h
  rw [List.getElem?_eq_some_iff] at hex
  obtain ⟨h2, rfl⟩ := hex
  exact hp

/-- C8. `addArticle`: when a stored article has the same url, that entry is
replaced in place by the new article with the stored id preserved (length
unchanged); otherwise the article is appended at the end; in both cases the
full resulting list is saved. -/
theorem addArticle_spec (host : Host) (suf : Nat → Str) (article : Article) :
    (∀ i ex, (loadArticles host).findIdx? (fun a => a.url == article.url) = some i →
      (loadArticles host)[i]? = some ex →
      addArticle suf article host
          = saveArticles suf ((loadArticles host).set i { article with id := ex.id }) host
        ∧ ((loadArticles host).set i { article with id := ex.id }).length
            = (loadArticles host).length
        ∧ ex.url = article.url)
    ∧ ((∀ a ∈ loadArticles host, a.url ≠ article.url) →
      addArticle suf article host = saveArticles suf (loadArticles host ++ [article]) host) := by
  constructor
  · intro i ex hidx hget
    refine ⟨?_, List.length_set _ _ _, ?_⟩
    · simp only [addArticle]
      rw [hidx]
      simp only [hget, Option.getD_some]
    · have := findIdx?_some_sat (loadArticles host) i hidx ex hget
      simpa using this
  · intro hnone
    have hfind : (loadArticles host).findIdx? (fun a => a.url == article.url) = none := by
      rw [List.findIdx?_eq_none_iff]
      intro a ha
      simpa using hnone a ha
    simp only [addArticle]
    rw [hfind]

/-- Witness for C8: adding an article whose url matches nothing stored
appends it and saves. -/
theorem addArticle_spec_witness :
    addArticle (fun _ => []) unknownArticle sampleHost
      = saveArticles (fun _ => []) (loadArticles sampleHost ++ [unknownArticle]) sampleHost :=
  (addArticle_spec sampleHost (fun _ => []) unknownArticle).2 (by decide)

theorem lookup_insertKV_self : ∀ (m : ChunkMap) (k v : Str),
    (insertKV m k v).lookup k = some v := by
  intro m
  induction m with
  | nil => intro k v; simp [insertKV, List.lookup]
  | cons p rest ih =>
    intro k v
    rw [insertKV]
    by_cases h : p.1 = k
    · rw [if_pos h]
      simp [List.lookup, h]
    · rw [if_neg h]
      have hbeq : (k == p.1) = false := beq_eq_false_iff_ne.mpr (fun hx => h hx.symm)
      simp [List.lookup, hbeq, ih]

theorem lookup_insertKV_ne : ∀ (m : ChunkMap) (k k' v : Str), k ≠ k' →
    (insertKV m k' v).lookup k = m.lookup k := by
  intro m
  induction m with
  | nil =>
    intro k k' v h
    have hbeq : (k == k') = false := beq_eq_false_iff_ne.mpr h
    simp [insertKV, List.lookup, hbeq]
  | cons p rest ih =>
    intro k k' v h
    rw [insertKV]
    by_cases hp : p.1 = k'
    · rw [if_pos hp]
      have hbeq : (k == p.1) = false :=
        beq_eq_false_iff_ne.mpr (fun hx => h (hx.trans hp))
      simp [List.lookup, hbeq]
    · rw [if_neg hp]
      by_cases hk : k = p.1
      · simp [List.lookup, hk]
      · have hbeq : (k == p.1) = false := beq_eq_false_iff_ne.mpr hk
        simp [List.lookup, hbeq, ih _ _ _ h]

theorem lookup_insertAll_not_mem : ∀ (ps : List (Str × Str)) (m : ChunkMap) (k : Str),
    k ∉ ps.map Prod.fst → (insertAll m ps).lookup k = m.lookup k := by
  intro ps
  induction ps with
  | nil => intro m k _; rfl
  | cons p rest ih =>
    intro m k hk
    simp only [List.map_cons, List.mem_cons, not_or] at hk
    show (insertAll (insertKV m p.1 p.2) rest).lookup k = m.lookup k
    rw [ih _ _ hk.2, lookup_insertKV_ne _ _ _ _ hk.1]

/-- C10. `saveArticles` never removes or overwrites an existing chunk-map
entry: provided the freshly generated chunk ids do not collide with keys
already in the map (they carry a fresh random uuid token per save), every
previously present key still maps to the same content afterwards. -/
theorem saveArticles_preserves_chunks (host : Host) (suf : Nat → Str)
    (articles : List Article)
    (hfresh : ∀ k ∈ (serializeArticles suf 0 articles).2.map Prod.fst,
      (chunksOf host).lookup k = none) :
    ∀ k v, (chunksOf host).lookup k = some v →
      (chunksOf (saveArticles suf articles host)).lookup k = some v := by
  intro k v hkv
  have hnot : k ∉ (serializeArticles suf 0 articles).2.map Prod.fst := by
    intro hmem
    rw [hfresh k hmem] at hkv
    cases hkv
  show (insertAll (chunksOf host) (serializeArticles suf 0 articles).2).lookup k = some v
  rw [lookup_insertAll_not_mem _ _ _ hnot]
  exact hkv

/-- A concrete host carrying one pre-existing chunk entry. -/
def sampleChunkHost : Host :=
  { pluginData := some ({ articlesVal := some [],
                          chunksVal := some [(strL "c1", strL "V")] } : PluginData),
    loadDataResult := LoadResult.ok none }

/-- Witness for C10: saving a small (unchunked) article over a host with a
pre-existing chunk entry keeps that entry intact. -/
theorem saveArticles_preserves_chunks_witness :
    (chunksOf (saveArticles (fun _ => []) [sampleStoredArticle] sampleChunkHost)).lookup
        (strL "c1") = some (strL "V") := by
  have hpairs : (serializeArticles (fun _ => ([] : Str)) 0 [sampleStoredArticle]).2.map
      Prod.fst = ([] : List Str) := by decide
  exact saveArticles_preserves_chunks sampleChunkHost (fun _ => []) [sampleStoredArticle]
    (fun k hk => by rw [hpairs] at hk; cases hk) (strL "c1") (strL "V") (by decide)

theorem chunkId_inj (aId sufi sufj : Str) (i j : Nat)
    (h : chunkId aId i sufi = chunkId aId j sufj) : i = j := by
  unfold chunkId at h
  have h1 := List.append_cancel_left h
  have h2 := List.append_cancel_left h1
  have hd : strL "-" = ['-'] := rfl
  rw [hd, List.singleton_append, List.singleton_append] at h2
  have hsplit := hyphen_split_unique (natDigits i) (natDigits j) sufi sufj
    (hyphen_not_mem_natDigits i) (hyphen_not_mem_natDigits j) h2
  exact natDigits_injective hsplit.1

theorem map_lookup_insertAll : ∀ (ps : List (Str × Str)) (m : ChunkMap),
    (ps.map Prod.fst).Nodup →
    (ps.map Prod.fst).map (fun k => ((insertAll m ps).lookup k).getD [])
      = ps.map Prod.snd := by
  intro ps
  induction ps with
  | nil => intro m _; rfl
  | cons p rest ih =>
    intro m hnd
    simp only [List.map_cons, List.nodup_cons] at hnd ⊢
    show ((insertAll (insertKV m p.1 p.2) rest).lookup p.1).getD [] ::
        (rest.map Prod.fst).map
          (fun k => ((insertAll (insertKV m p.1 p.2) rest).lookup k).getD [])
      = p.2 :: rest.map Prod.snd
    rw [lookup_insertAll_not_mem _ _ _ hnd.1, lookup_insertKV_self, ih _ hnd.2]
    rfl

theorem splitContentIntoChunks_ne_nil (content : Str) (h : content ≠ []) :
    splitContentIntoChunks content ≠ [] := by
  intro hz
  have hfl := splitContentIntoChunks_flatten content
  rw [hz] at hfl
  exact h hfl.symm

/-- C1 (amended). Save→load round trip of article content is exact for
every content string that is non-blank and contains markup (a `<`
character), including content above the chunk threshold, for every choice
of uuid chunk-id suffixes (the ids a single save generates always differ
in the decimal index preceding the first hyphen after the fixed
`-chunk-` marker). -/
theorem saveLoad_content_roundtrip (host : Host) (suf : Nat → Str) (a : Article)
    (hnb : trimStr a.content ≠ [])
    (hlt : a.content.contains '<' = true) :
    (loadArticles (saveArticles suf [a] host)).map (fun x => x.content) = [a.content] := by
  have hne : a.content ≠ [] := by
    intro h
    apply hnb
    rw [h]
    rfl
  have hser : serializeArticles suf 0 [a]
      = ((serializeArticle suf 0 a).1 :: [], (serializeArticle suf 0 a).2.1 ++ []) := rfl
  have hvc : (if a.content.contains '<' = true then a.content else wrapP a.content)
      = a.content := if_pos hlt
  by_cases h50 : CONTENT_CHUNK_SIZE < a.content.length
  · -- chunked path
    set pairs := (splitContentIntoChunks a.content).enum.map
      (fun p => (chunkId a.id p.1 (suf (0 + p.1)), p.2)) with hpairs
    have hsa : serializeArticle suf 0 a
        = ({ a with
              content := a.content.take 200 ++ strL "... [Content stored in chunks]",
              contentChunkIds := pairs.map Prod.fst },
            pairs, 0 + (splitContentIntoChunks a.content).length) := by
      simp only [serializeArticle]
      rw [if_neg hne, if_neg hnb, hvc, if_pos h50]
    have hchunks : splitContentIntoChunks a.content ≠ [] :=
      splitContentIntoChunks_ne_nil _ hne
    have hkeys_ne : pairs.map Prod.fst ≠ [] := by
      rw [hpairs]
      simp only [ne_eq, List.map_eq_nil_iff, List.enum_eq_nil]
      exact hchunks
    have hnd : (pairs.map Prod.fst).Nodup := by
      rw [hpairs, List.map_map]
      have hcomp : (Prod.fst ∘ fun p : Nat × Str =>
            (chunkId a.id p.1 (suf (0 + p.1)), p.2))
          = (fun i => chunkId a.id i (suf (0 + i))) ∘ Prod.fst := rfl
      rw [hcomp, ← List.map_map, List.enum_map_fst]
      refine List.Nodup.map ?_ (List.nodup_range _)
      intro i j hij
      exact chunkId_inj a.id (suf (0 + i)) (suf (0 + j)) i j hij
    have hreasm : ∀ m : ChunkMap, reassembleContentFromChunks (pairs.map Prod.fst)
        (insertAll m pairs) = a.content := by
      intro m
      rw [reassemble_eq_flatten_lookups, map_lookup_insertAll _ _ hnd]
      have hsnd : pairs.map Prod.snd = splitContentIntoChunks a.content := by
        rw [hpairs, List.map_map]
        have hcomp : (Prod.snd ∘ fun p : Nat × Str =>
              (chunkId a.id p.1 (suf (0 + p.1)), p.2)) = Prod.snd := rfl
        rw [hcomp, List.enum_map_snd]
      rw [hsnd, splitContentIntoChunks_flatten]
    simp only [saveArticles, hser, hsa, List.append_nil, loadArticles,
      Option.some_bind, chunksOf, Option.getD_some, processArticleData,
      List.map_cons, List.map_nil, processStoredArticle]
    rw [if_pos hkeys_ne, hreasm, if_pos hne, hvc]
  · -- inline path
    have hsa : serializeArticle suf 0 a
        = ({ a with content := a.content, contentChunkIds := [] }, [], 0) := by
      simp only [serializeArticle]
      rw [if_neg hne, if_neg hnb, hvc, if_neg h50]
    have hnn : ¬(([] : List Str) ≠ []) := fun h => h rfl
    simp only [saveArticles, hser, hsa, List.append_nil, loadArticles,
      Option.some_bind, chunksOf, Option.getD_some, processArticleData,
      List.map_cons, List.map_nil, processStoredArticle]
    rw [if_neg hnn, if_neg hnb, hvc]

/-- A concrete host with nothing persisted yet. -/
def emptyHost : Host :=
  { pluginData := none, loadDataResult := LoadResult.ok none }

/-- An article whose content is the empty string. -/
def emptyContentArticle : Article :=
  { id := strL "a1", title := [], url := strL "https://e.com/a",
    status := ArticleStatus.unread, content := [], contentChunkIds := [] }

/-- Witness for the amended C1: a small markup content round-trips exactly
through save and load. -/
theorem saveLoad_content_roundtrip_witness :
    (loadArticles (saveArticles (fun _ => []) [sampleStoredArticle] emptyHost)).map
        (fun x => x.content) = [sampleStoredArticle.content] :=
  saveLoad_content_roundtrip emptyHost (fun _ => []) sampleStoredArticle
    (by decide) (by decide)

/-- Counterexample to C1 as stated: saving an article whose content is the
empty string and loading it back yields the fixed serialization fallback
notice, not the empty string. -/
theorem saveLoad_content_roundtrip_counterexample :
    (loadArticles (saveArticles (fun _ => []) [emptyContentArticle] emptyHost)).map
        (fun x => x.content) = [lostContentFallback]
    ∧ (loadArticles (saveArticles (fun _ => []) [emptyContentArticle] emptyHost)).map
        (fun x => x.content) ≠ [emptyContentArticle.content] := by
  constructor
  · decide
  · decide

/-! ## DOM model

A minimal model of the browser DOM used by the content codec through
`document.createElement('div')`, the `innerHTML` setter (an HTML fragment
parser), the `innerHTML`/`outerHTML` getters (the HTML fragment
serializer), `children` (element children only), `textContent`, and
attribute access.  Character entities, comment nodes, single-quoted
attributes and raw-text parsing inside script/style are not modelled; the
concrete markup this development evaluates contains none of those, and on
it this model agrees with the browser.  URL resolution of `img.src` is
modelled as the identity on the attribute value. -/

inductive HNode where
  | elem (tag : Str) (attrs : List (Str × Str)) (children : List HNode)
  | text (s : Str)

/-- Void elements: serialized without children and without a closing tag. -/
def isVoidTag (tag : Str) : Bool :=
  tag == strL "area" || tag == strL "base" || tag == strL "br" || tag == strL "col" ||
  tag == strL "embed" || tag == strL "hr" || tag == strL "img" || tag == strL "input" ||
  tag == strL "link" || tag == strL "meta" || tag == strL "param" || tag == strL "source" ||
  tag == strL "track" || tag == strL "wbr"

/-- Text-node escaping performed by the serializer behind the `innerHTML`
getter. -/
def escapeTextChar (c : Char) : Str :=
  if c = '&' then strL "&amp;"
  else if c = '<' then strL "&lt;"
  else if c = '>' then strL "&gt;"
  else [c]

/-- Escape a text node for serialization. -/
def escapeText (s : Str) : Str := s.foldr (fun c acc => escapeTextChar c ++ acc) []

/-- Attribute-value escaping performed by the serializer. -/
def escapeAttrChar (c : Char) : Str :=
  if c = '&' then strL "&amp;"
  else if c = '"' then strL "&quot;"
  else [c]

/-- Escape an attribute value for serialization. -/
def escapeAttr (s : Str) : Str := s.foldr (fun c acc => escapeAttrChar c ++ acc) []

/-- Serialize an attribute list, double-quoted, in stored order. -/
def serializeAttrs (attrs : List (Str × Str)) : Str :=
  attrs.foldr
    (fun p acc => ' ' :: (p.1 ++ ('=' :: '"' :: (escapeAttr p.2 ++ ('"' :: acc))))) []

mutual

/-- The `outerHTML` getter on one node. -/
def serializeNode : HNode → Str
  | HNode.text s => escapeText s
  | HNode.elem tag attrs children =>
    '<' :: (tag ++ serializeAttrs attrs ++ ('>' ::
      (if isVoidTag tag then []
       else serializeNodes children ++ ('<' :: '/' :: (tag ++ ['>'])))))

/-- The `innerHTML` getter on a child list. -/
def serializeNodes : List HNode → Str
  | [] => []
  | n :: ns => serializeNode n ++ serializeNodes ns

end

mutual

/-- The `textContent` getter on one node. -/
def textContentNode : HNode → Str
  | HNode.text s => s
  | HNode.elem _ _ children => textContentNodes children

/-- The `textContent` getter on a child list. -/
def textContentNodes : List HNode → Str
  | [] => []
  | n :: ns => textContentNode n ++ textContentNodes ns

end

/-- Whether a node is an element node. -/
def isElemNode : HNode → Bool
  | HNode.elem _ _ _ => true
  | HNode.text _ => false

/-- The `children` collection: element children only. -/
def elementsOf (ns : List HNode) : List HNode := ns.filter isElemNode

/-- `getAttribute`, first occurrence wins. -/
def getAttr (attrs : List (Str × Str)) (name : Str) : Option Str := attrs.lookup name

/-- ASCII letter test, for tag-open detection. -/
def isAsciiAlpha (c : Char) : Bool :=
  (decide (97 ≤ c.toNat) && decide (c.toNat ≤ 122)) ||
  (decide (65 ≤ c.toNat) && decide (c.toNat ≤ 90))

/-- Characters allowed in a tag name (letters, digits, hyphen). -/
def isTagNameChar (c : Char) : Bool :=
  isAsciiAlpha c || (decide (48 ≤ c.toNat) && decide (c.toNat ≤ 57)) || c == '-'

/-- HTML whitespace. -/
def isSpaceChar (c : Char) : Bool :=
  c == ' ' || c == '\n' || c == '\t' || c == '\r'

/-- ASCII lowercasing of one character. -/
def toLowerChar (c : Char) : Char :=
  if decide (65 ≤ c.toNat) && decide (c.toNat ≤ 90) then Char.ofNat (c.toNat + 32) else c

/-- ASCII lowercasing, as the DOM applies to tag and attribute names. -/
def lowerStr (s : Str) : Str := s.map toLowerChar

/-- Characters allowed in an attribute name. -/
def isAttrNameChar (c : Char) : Bool :=
  !(isSpaceChar c || c == '=' || c == '>' || c == '/' || c == '"')

/-- Attribute-list parsing of the fragment parser (double-quoted or
unquoted values); the fuel argument only bounds the loop. -/
def parseAttrs : Nat → List Char → List (Str × Str) × List Char
  | 0, cs => ([], cs)
  | fuel + 1, cs =>
    let cs1 := cs.dropWhile isSpaceChar
    match cs1 with
    | [] => ([], [])
    | '>' :: _ => ([], cs1)
    | '/' :: rest => parseAttrs fuel rest
    | c :: rest =>
      let name := lowerStr ((c :: rest).takeWhile isAttrNameChar)
      let afterName := ((c :: rest).dropWhile isAttrNameChar).dropWhile isSpaceChar
      match afterName with
      | '=' :: afterEq =>
        let afterEq1 := afterEq.dropWhile isSpaceChar
        match afterEq1 with
        | '"' :: vrest =>
          let v := vrest.takeWhile (fun x => !(x == '"'))
          let after := (vrest.dropWhile (fun x => !(x == '"'))).drop 1
          let r := parseAttrs fuel after
          ((name, v) :: r.1, r.2)
        | _ =>
          let v := afterEq1.takeWhile (fun x => !(isSpaceChar x || x == '>'))
          let after := afterEq1.dropWhile (fun x => !(isSpaceChar x || x == '>'))
          let r := parseAttrs fuel after
          ((name, v) :: r.1, r.2)
      | _ =>
        let r := parseAttrs fuel afterName
        ((name, []) :: r.1, r.2)

/-- Consume a well-formed closing tag for `tag` if it is next. -/
def consumeCloseTag (tag : Str) (cs : List Char) : List Char :=
  match cs with
  | '<' :: '/' :: rest =>
    let name := lowerStr (rest.takeWhile isTagNameChar)
    let afterName := rest.dropWhile isTagNameChar
    if name == tag then
      match afterName.dropWhile isSpaceChar with
      | '>' :: r => r
      | r => r
    else cs
  | _ => cs

/-- The HTML fragment parser behind the `innerHTML` setter, restricted to
the well-formed fragments this development evaluates.  Returns the parsed
sibling list and the unconsumed remainder (a pending closing tag for the
enclosing element).  The fuel argument only bounds the recursion. -/
def parseNodes : Nat → List Char → List HNode × List Char
  | 0, cs => ([], cs)
  | fuel + 1, cs =>
    match cs with
    | [] => ([], [])
    | '<' :: rest =>
      match rest with
      | [] => ([HNode.text ['<']], [])
      | '/' :: _ => ([], cs)
      | c :: rest2 =>
        if isAsciiAlpha c then
          let tag := lowerStr ((c :: rest2).takeWhile isTagNameChar)
          let afterTag := (c :: rest2).dropWhile isTagNameChar
          let ar := parseAttrs fuel afterTag
          let afterOpen := match ar.2 with
            | '>' :: r => r
            | r => r
          if isVoidTag tag then
            let r := parseNodes fuel afterOpen
            (HNode.elem tag ar.1 [] :: r.1, r.2)
          else
            let rc := parseNodes fuel afterOpen
            let afterClose := consumeCloseTag tag rc.2
            let r := parseNodes fuel afterClose
            (HNode.elem tag ar.1 rc.1 :: r.1, r.2)
        else
          let t := (c :: rest2).takeWhile (fun x => !(x == '<'))
          let r0 := (c :: rest2).dropWhile (fun x => !(x == '<'))
          let r := parseNodes fuel r0
          (HNode.text ('<' :: t) :: r.1, r.2)
    | c :: rest =>
      let t := (c :: rest).takeWhile (fun x => !(x == '<'))
      let r0 := (c :: rest).dropWhile (fun x => !(x == '<'))
      let r := parseNodes fuel r0
      (HNode.text t :: r.1, r.2)

/-- `tempDiv.innerHTML = s` followed by reading `tempDiv.childNodes`. -/
def parseHtml (s : Str) : List HNode := (parseNodes (s.length + 1) s).1

/-! ## ContentCodec (src/utils/contentUtils.ts and the parser inside
ReaderView.tsx useArticleContent) -/

/-- The `ParsedContentElement` type union. -/
inductive ContentType where
  | paragraph
  | heading
  | image
  | list
  | code
  | blockquote
deriving DecidableEq

/-- `ParsedContentElement` (contentUtils.ts lines 6-14); the transient
`isHighlighted` editing flag is never read by the codec paths under
verification and is omitted. -/
structure PElem where
  id : Str
  type : ContentType
  content : Str
  level : Option Nat := none
  src : Option Str := none
  alt : Option Str := none
deriving DecidableEq

/-- The `(type, content, level, src, alt)` view of an element (element ids
are per-decode counters and not semantically meaningful). -/
def elTuple (e : PElem) : ContentType × Str × Option Nat × Option Str × Option Str :=
  (e.type, e.content, e.level, e.src, e.alt)

/-- Fallback element for empty input (contentUtils.ts lines 26-30). -/
def noContentElem : PElem :=
  { id := strL "empty-content", type := ContentType.paragraph,
    content := strL "No content available for this article." }

/-- Fallback element when parsing yields no element children
(contentUtils.ts lines 43-47). -/
def emptyParsedElem : PElem :=
  { id := strL "empty-parsed-content", type := ContentType.paragraph,
    content := strL "Content could not be parsed properly." }

/-- The `forEach` over `tempDiv.children` of `parseArticleContent`
(contentUtils.ts lines 51-127), with the per-decode id counter.  The
comment-node guard is dead here because `children` holds only element
nodes; text patterns below are likewise unreachable. -/
def processChildren : Nat → List HNode → List PElem
  | _, [] => []
  | idc, n :: rest =>
    match n with
    | HNode.text _ => processChildren idc rest
    | HNode.elem tag attrs children =>
      if tag == strL "script" || tag == strL "style" then processChildren idc rest
      else
        let e : PElem :=
          if tag == strL "p" then
            { id := strL "p-" ++ natDigits idc, type := ContentType.paragraph,
              content := serializeNodes children }
          else if tag == strL "h1" then
            { id := strL "h1-" ++ natDigits idc, type := ContentType.heading,
              content := serializeNodes children, level := some 1 }
          else if tag == strL "h2" then
            { id := strL "h2-" ++ natDigits idc, type := ContentType.heading,
              content := serializeNodes children, level := some 2 }
          else if tag == strL "h3" then
            { id := strL "h3-" ++ natDigits idc, type := ContentType.heading,
              content := serializeNodes children, level := some 3 }
          else if tag == strL "h4" then
            { id := strL "h4-" ++ natDigits idc, type := ContentType.heading,
              content := serializeNodes children, level := some 4 }
          else if tag == strL "h5" then
            { id := strL "h5-" ++ natDigits idc, type := ContentType.heading,
              content := serializeNodes children, level := some 5 }
          else if tag == strL "h6" then
            { id := strL "h6-" ++ natDigits idc, type := ContentType.heading,
              content := serializeNodes children, level := some 6 }
          else if tag == strL "img" then
            { id := strL "img-" ++ natDigits idc, type := ContentType.image,
              content := [],
              src := some ((getAttr attrs (strL "src")).getD []),
              alt := some ((getAttr attrs (strL "alt")).getD []) }
          else if tag == strL "ul" || tag == strL "ol" then
            { id := strL "list-" ++ natDigits idc, type := ContentType.list,
              content := serializeNode (HNode.elem tag attrs children) }
          else if tag == strL "pre" then
            { id := strL "code-" ++ natDigits idc, type := ContentType.code,
              content := serializeNodes children }
          else if tag == strL "blockquote" then
            { id := strL "blockquote-" ++ natDigits idc, type := ContentType.blockquote,
              content := serializeNodes children }
          else
            { id := strL "element-" ++ natDigits idc, type := ContentType.paragraph,
              content := serializeNode (HNode.elem tag attrs children) }
        e :: processChildren (idc + 1) rest

/-- `parseArticleContent` (contentUtils.ts lines 22-139).  The
`!htmlContent || htmlContent.trim() === ''` guard is equivalent to the
trimmed content being empty; the surrounding try/catch is dead in this
model because the modelled fragment parser is total. -/
def parseArticleContent (htmlContent : Str) : List PElem :=
  if trimStr htmlContent = [] then [noContentElem]
  else
    let children := elementsOf (parseHtml htmlContent)
    if children.length = 0 then [emptyParsedElem]
    else processChildren 0 children

/-- `el.level || 1` (JavaScript falsy check on the heading level). -/
def levelOrOne : Option Nat → Nat
  | some l => if l = 0 then 1 else l
  | none => 1

/-- JavaScript truthiness of an optional string field. -/
def truthyStr : Option Str → Bool
  | some s => !s.isEmpty
  | none => false

/-- The per-element node construction of `generateHtmlFromContent`
(contentUtils.ts lines 149-186): an `innerHTML` assignment is modelled as
parsing the content into the new element's children; list and code
contents are parsed and their `firstChild` inserted as-is, with the empty
`div`/`pre` fallback. -/
def buildNodeFromEl (el : PElem) : HNode :=
  match el.type with
  | ContentType.heading =>
    HNode.elem (strL "h" ++ natDigits (levelOrOne el.level)) [] (parseHtml el.content)
  | ContentType.paragraph => HNode.elem (strL "p") [] (parseHtml el.content)
  | ContentType.image =>
    HNode.elem (strL "img")
      ((if truthyStr el.src then [(strL "src", el.src.getD [])] else []) ++
        (if truthyStr el.alt then [(strL "alt", el.alt.getD [])] else [])) []
  | ContentType.list =>
    ((parseHtml el.content).head?).getD (HNode.elem (strL "div") [] [])
  | ContentType.blockquote => HNode.elem (strL "blockquote") [] (parseHtml el.content)
  | ContentType.code =>
    ((parseHtml el.content).head?).getD (HNode.elem (strL "pre") [] [])

/-- `generateHtmlFromContent` (contentUtils.ts lines 146-189): append the
node built for each element to a container and read its `innerHTML`. -/
def generateHtmlFromContent (contentElements : List PElem) : Str :=
  serializeNodes (contentElements.map buildNodeFromEl)

mutual

/-- `processNode` of `useArticleContent.parseContent` (ReaderView.tsx lines
173-260), threading the id counter and returning the pushed elements.
Note `pre` and `code` store the node's outer markup here, unlike
`parseArticleContent`. -/
def processNodeRV : Nat → HNode → List PElem × Nat
  | idc, HNode.text _ => ([], idc)
  | idc, HNode.elem tag attrs children =>
    if tag == strL "script" || tag == strL "style" then ([], idc)
    else if tag == strL "p" then
      ([{ id := strL "p-" ++ natDigits idc, type := ContentType.paragraph,
          content := serializeNodes children }], idc + 1)
    else if tag == strL "h1" then
      ([{ id := strL "h1-" ++ natDigits idc, type := ContentType.heading,
          content := serializeNodes children, level := some 1 }], idc + 1)
    else if tag == strL "h2" then
      ([{ id := strL "h2-" ++ natDigits idc, type := ContentType.heading,
          content := serializeNodes children, level := some 2 }], idc + 1)
    else if tag == strL "h3" then
      ([{ id := strL "h3-" ++ natDigits idc, type := ContentType.heading,
          content := serializeNodes children, level := some 3 }], idc + 1)
    else if tag == strL "h4" then
      ([{ id := strL "h4-" ++ natDigits idc, type := ContentType.heading,
          content := serializeNodes children, level := some 4 }], idc + 1)
    else if tag == strL "h5" then
      ([{ id := strL "h5-" ++ natDigits idc, type := ContentType.heading,
          content := serializeNodes children, level := some 5 }], idc + 1)
    else if tag == strL "h6" then
      ([{ id := strL "h6-" ++ natDigits idc, type := ContentType.heading,
          content := serializeNodes children, level := some 6 }], idc + 1)
    else if tag == strL "img" then
      ([{ id := strL "img-" ++ natDigits idc, type := ContentType.image,
          content := [],
          src := some ((getAttr attrs (strL "src")).getD []),
          alt := some ((getAttr attrs (strL "alt")).getD []) }], idc + 1)
    else if tag == strL "ul" || tag == strL "ol" then
      ([{ id := strL "list-" ++ natDigits idc, type := ContentType.list,
          content := serializeNode (HNode.elem tag attrs children) }], idc + 1)
    else if tag == strL "blockquote" then
      ([{ id := strL "blockquote-" ++ natDigits idc, type := ContentType.blockquote,
          content := serializeNodes children }], idc + 1)
    else if tag == strL "pre" || tag == strL "code" then
      ([{ id := strL "code-" ++ natDigits idc, type := ContentType.code,
          content := serializeNode (HNode.elem tag attrs children) }], idc + 1)
    else
      if (elementsOf children).length > 0 then processNodesRV idc children
      else if trimStr (textContentNodes children) ≠ [] then
        ([{ id := strL "text-" ++ natDigits idc, type := ContentType.paragraph,
            content := textContentNodes children }], idc + 1)
      else ([], idc)

/-- The `forEach(childNode => processNode(childNode))` over a child list.
The source iterates `node.children` (element children only); iterating all
child nodes is equivalent because `processNodeRV` yields nothing on a text
node, and keeps the recursion structural. -/
def processNodesRV : Nat → List HNode → List PElem × Nat
  | idc, [] => ([], idc)
  | idc, n :: rest =>
    let r := processNodeRV idc n
    let rs := processNodesRV r.2 rest
    (r.1 ++ rs.1, rs.2)

end

/-- DecidableEq for the element tuple view, assembled explicitly to keep
instance search small. -/
instance : DecidableEq (ContentType × Str × Option Nat × Option Str × Option Str) :=
  @instDecidableEqProd _ _ inferInstance inferInstance

/-- Whether an element node is a script or style element (skipped by both
parsers). -/
def isScriptOrStyle : HNode → Bool
  | HNode.elem tag _ _ => tag == strL "script" || tag == strL "style"
  | HNode.text _ => false

theorem processChildren_eq_nil_iff : ∀ (k : Nat) (l : List HNode),
    processChildren k l = [] ↔
      ∀ n ∈ l, isElemNode n = false ∨ isScriptOrStyle n = true := by
  intro k l
  induction l generalizing k with
  | nil => simp [processChildren]
  | cons n rest ih =>
    cases n with
    | text s =>
      rw [processChildren]
      simp only [List.mem_cons]
      constructor
      · intro h x hx
        rcases hx with rfl | hx
        · exact Or.inl rfl
        · exact ((ih k).mp h) x hx
      · intro h
        exact (ih k).mpr (fun x hx => h x (Or.inr hx))
    | elem tag attrs children =>
      rw [processChildren]
      by_cases hss : (tag == strL "script" || tag == strL "style") = true
      · rw [if_pos hss]
        simp only [List.mem_cons]
        constructor
        · intro h x hx
          rcases hx with rfl | hx
          · exact Or.inr hss
          · exact ((ih k).mp h) x hx
        · intro h
          exact (ih k).mpr (fun x hx => h x (Or.inr hx))
      · rw [if_neg hss]
        simp only [List.mem_cons]
        constructor
        · intro h
          cases h
        · intro h
          rcases h (HNode.elem tag attrs children) (Or.inl rfl) with he | hs
          · simp [isElemNode] at he
          · exact absurd hs (by simpa [isScriptOrStyle] using hss)

/-- C4 (amended). `parseArticleContent` is total and returns the fixed
"no content available" element for empty or blank input and the fixed
parse-fallback element for non-blank input that parses to zero element
children; its result is empty exactly when the input is non-blank and
parses to a non-empty element-child list consisting only of script/style
elements, which the per-child loop skips. -/
theorem parseArticleContent_fallbacks :
    parseArticleContent [] = [noContentElem]
    ∧ parseArticleContent (strL "   ") = [noContentElem]
    ∧ (∀ s : Str, trimStr s ≠ [] → (elementsOf (parseHtml s)).length = 0 →
        parseArticleContent s = [emptyParsedElem])
    ∧ (∀ s : Str, parseArticleContent s = [] ↔
        (trimStr s ≠ [] ∧ (elementsOf (parseHtml s)).length ≠ 0
          ∧ ∀ n ∈ elementsOf (parseHtml s), isScriptOrStyle n = true)) := by
  refine ⟨by decide, by decide, ?_, ?_⟩
  · intro s hnb hzero
    rw [parseArticleContent, if_neg hnb, if_pos hzero]
  · intro s
    rw [parseArticleContent]
    by_cases hb : trimStr s = []
    · rw [if_pos hb]
      constructor
      · intro h
        cases h
      · rintro ⟨hnb, _⟩
        exact absurd hb hnb
    · rw [if_neg hb]
      by_cases hc : (elementsOf (parseHtml s)).length = 0
      · rw [if_pos hc]
        constructor
        · intro h
          cases h
        · rintro ⟨_, hnz, _⟩
          exact absurd hc hnz
      · rw [if_neg hc]
        constructor
        · intro h
          refine ⟨hb, hc, ?_⟩
          intro n hn
          rcases (processChildren_eq_nil_iff 0 _).mp h n hn with he | hs
          · have := (List.mem_filter.mp hn).2
            rw [this] at he
            cases he
          · exact hs
        · rintro ⟨_, _, hall⟩
          exact (processChildren_eq_nil_iff 0 _).mpr
            (fun n hn => Or.inr (hall n hn))

/-- Witness for the amended C4: a plain-text input parses to zero element
children and yields exactly the parse-fallback element. -/
theorem parseArticleContent_fallbacks_witness :
    parseArticleContent (strL "hello") = [emptyParsedElem] :=
  parseArticleContent_fallbacks.2.2.1 (strL "hello") (by decide) (by decide)

/-- Counterexample to C4 as stated: an input whose only element child is a
script element decodes to the empty element sequence, so decode does not
always return at least one element. -/
theorem parseArticleContent_empty_counterexample :
    parseArticleContent (strL "<script></script>") = [] := by decide

/-- C5, evaluated at the failing input `<p>A</p><pre>hi</pre>`:
`parseArticleContent` stores the pre element's inner markup as the code
element's content, but `generateHtmlFromContent` re-inserts code content
as a complete fragment, losing the `<pre>` wrapper, so
`decode(encode(decode(M)))` is not tuple-equal to `decode(M)`. -/
theorem parseArticleContent_pre_breaks_roundtrip :
    (parseArticleContent (strL "<p>A</p><pre>hi</pre>")).map elTuple
        = [(ContentType.paragraph, strL "A", none, none, none),
           (ContentType.code, strL "hi", none, none, none)]
    ∧ generateHtmlFromContent (parseArticleContent (strL "<p>A</p><pre>hi</pre>"))
        = strL "<p>A</p>hi"
    ∧ (parseArticleContent (generateHtmlFromContent
          (parseArticleContent (strL "<p>A</p><pre>hi</pre>")))).map elTuple
        ≠ (parseArticleContent (strL "<p>A</p><pre>hi</pre>")).map elTuple :=
  ⟨by decide, by decide, by decide⟩

/-- Counterexample to C9 as stated: in `parseArticleContent` an
unrecognized childful node is not recursed into but becomes one paragraph
over its own outer markup (so its children are not processed as top-level
nodes), and in ReaderView's `processNode` a childless unrecognized node
with blank text contributes nothing (so unrecognized content can be
dropped), while a childless unrecognized node with text becomes a
paragraph over its text content, not its outer markup. -/
theorem unrecognized_node_counterexample :
    parseArticleContent (strL "<div><p>A</p></div>")
        = [{ id := strL "element-0", type := ContentType.paragraph,
             content := strL "<div><p>A</p></div>" }]
    ∧ (parseArticleContent (strL "<div><p>A</p></div>")).map elTuple
        ≠ (parseArticleContent (strL "<p>A</p>")).map elTuple
    ∧ processNodeRV 0 (HNode.elem (strL "span") [] [HNode.text (strL "  ")]) = ([], 0)
    ∧ (processNodeRV 0 (HNode.elem (strL "span") [] [HNode.text (strL "hi")])).1
        = [{ id := strL "text-0", type := ContentType.paragraph, content := strL "hi" }]
    ∧ strL "hi" ≠ serializeNode (HNode.elem (strL "span") [] [HNode.text (strL "hi")]) :=
  ⟨by decide, by decide, by decide, by decide, by decide⟩

/-- C9 (amended). On an unrecognized element: `parseArticleContent` always
pushes one paragraph-typed element whose content is the node's outer
markup (children are not recursed into); ReaderView's `processNode`
processes the element children as top-level nodes when there are any, and
otherwise pushes a paragraph over the node's text content when that text
is non-blank and pushes nothing when it is blank. -/
theorem unrecognized_node_handling (tag : Str) (attrs : List (Str × Str))
    (children : List HNode) (k : Nat) (rest : List HNode)
    (hA : tag ∉ [strL "script", strL "style", strL "p", strL "h1", strL "h2", strL "h3",
      strL "h4", strL "h5", strL "h6", strL "img", strL "ul", strL "ol", strL "pre",
      strL "blockquote"])
    (hB : tag ≠ strL "code") :
    processChildren k (HNode.elem tag attrs children :: rest)
        = { id := strL "element-" ++ natDigits k, type := ContentType.paragraph,
            content := serializeNode (HNode.elem tag attrs children) }
          :: processChildren (k + 1) rest
    ∧ ((elementsOf children).length > 0 →
        processNodeRV k (HNode.elem tag attrs children) = processNodesRV k children)
    ∧ ((elementsOf children).length = 0 → trimStr (textContentNodes children) ≠ [] →
        processNodeRV k (HNode.elem tag attrs children)
          = ([{ id := strL "text-" ++ natDigits k, type := ContentType.paragraph,
                content := textContentNodes children }], k + 1))
    ∧ ((elementsOf children).length = 0 → trimStr (textContentNodes children) = [] →
        processNodeRV k (HNode.elem tag attrs children) = ([], k)) := by
  have hne : ∀ x ∈ [strL "script", strL "style", strL "p", strL "h1", strL "h2", strL "h3",
      strL "h4", strL "h5", strL "h6", strL "img", strL "ul", strL "ol", strL "pre",
      strL "blockquote"], (tag == x) = false :=
    fun x hx => beq_eq_false_iff_ne.mpr (fun he => hA (he ▸ hx))
  have e01 : (tag == strL "script") = false := hne _ (by simp)
  have e02 : (tag == strL "style") = false := hne _ (by simp)
  have e03 : (tag == strL "p") = false := hne _ (by simp)
  have e04 : (tag == strL "h1") = false := hne _ (by simp)
  have e05 : (tag == strL "h2") = false := hne _ (by simp)
  have e06 : (tag == strL "h3") = false := hne _ (by simp)
  have e07 : (tag == strL "h4") = false := hne _ (by simp)
  have e08 : (tag == strL "h5") = false := hne _ (by simp)
  have e09 : (tag == strL "h6") = false := hne _ (by simp)
  have e10 : (tag == strL "img") = false := hne _ (by simp)
  have e11 : (tag == strL "ul") = false := hne _ (by simp)
  have e12 : (tag == strL "ol") = false := hne _ (by simp)
  have e13 : (tag == strL "pre") = false := hne _ (by simp)
  have e14 : (tag == strL "blockquote") = false := hne _ (by simp)
  have e15 : (tag == strL "code") = false := beq_eq_false_iff_ne.mpr hB
  refine ⟨?_, ?_, ?_, ?_⟩
  · rw [processChildren]
    simp [e01, e02, e03, e04, e05, e06, e07, e08, e09, e10, e11, e12, e13, e14]
  · intro hgt
    rw [processNodeRV]
    simp [e01, e02, e03, e04, e05, e06, e07, e08, e09, e10, e11, e12, e13, e14, e15, hgt]
  · intro hz hnb
    rw [processNodeRV]
    simp [e01, e02, e03, e04, e05, e06, e07, e08, e09, e10, e11, e12, e13, e14, e15,
      hz, hnb]
  · intro hz hb
    rw [processNodeRV]
    simp [e01, e02, e03, e04, e05, e06, e07, e08, e09, e10, e11, e12, e13, e14, e15,
      hz, hb]

/-- Witness for the amended C9 at a concrete unrecognized `div` with one
paragraph child. -/
theorem unrecognized_node_handling_witness :
    processNodeRV 0 (HNode.elem (strL "div") []
        [HNode.elem (strL "p") [] [HNode.text (strL "A")]])
      = processNodesRV 0 [HNode.elem (strL "p") [] [HNode.text (strL "A")]] :=
  (unrecognized_node_handling (strL "div") []
    [HNode.elem (strL "p") [] [HNode.text (strL "A")]] 0 []
    (by decide) (by decide)).2.1 (by decide)

end ReadItLater
